import Mathlib

/-!
Verification of the ARC Mentor Console escalation task-queue system.

Part I embeds the client code that exists in the repository
(`src/TaskQueue.tsx` and the Dashboard component): pure helper functions
become Lean functions, and the effectful `confirmAcceptTask` handler becomes
a state-and-effect-list transformer.

Part II models the escalation task queue and assignment engine ("the core"
of the specification).  That core is the backend counterpart of the client:
the repository contains only its callers, so the core itself is modelled
from the specification, operation by operation, as an executable transition
system over an explicit `CoreState`.
-/

set_option maxHeartbeats 1000000

/-! ## Part I: the client code under `src/` -/

/-- `session_type` field of the client `Task` interface
(`'chat' | 'voice' | 'emergency'`). -/
inductive SessionType
  | chat
  | voice
  | emergency
  deriving DecidableEq, Repr

/-- The client-side `Task` shape used by `TaskQueue.tsx` (the fields
`confirmAcceptTask` reads). -/
structure ClientTask where
  id : String
  task_sid : String
  user_alias : String
  session_type : SessionType
  risk_level : String
  deriving DecidableEq, Repr

/-- Observable effects performed by the `TaskQueue` component handlers:
socket emits, notification toasts, navigation, and the task re-fetch. -/
inductive ClientEffect
  | emitAcceptTask (task_sid : String) (notes : String)
  | notify (message : String) (severity : String)
  | navigateTo (path : String)
  | fetchTasks
  deriving DecidableEq, Repr

/-- The component state that `handleAcceptTask` / `confirmAcceptTask`
read and write: the dialog flag, the selected task, and the notes field. -/
structure TaskQueueState where
  acceptDialogOpen : Bool
  selectedTask : Option ClientTask
  notes : String
  deriving DecidableEq, Repr

namespace TaskQueueUI

/-- `handleAcceptTask` from `src/TaskQueue.tsx`: stores the clicked task and
opens the confirmation dialog. -/
def handleAcceptTask (s : TaskQueueState) (task : ClientTask) : TaskQueueState :=
  { s with selectedTask := some task, acceptDialogOpen := true }

/-- `confirmAcceptTask` from `src/TaskQueue.tsx`.  Returns early with no
effect when no task is selected; otherwise emits `accept_task`, shows the
success notification, navigates (chat/emergency) or shows the voice-call
notification, clears the dialog state, and re-fetches the task list.  The
socket `emit` is fire-and-forget: the handler never reads a coordinator
reply, so its output is a function of the component state alone (the
source's `catch` block is unreachable for the synchronous emit/notify
collaborators modelled here). -/
def confirmAcceptTask (s : TaskQueueState) : TaskQueueState × List ClientEffect :=
  match s.selectedTask with
  | none => (s, [])
  | some task =>
    ({ acceptDialogOpen := false, selectedTask := none, notes := "" },
     [ ClientEffect.emitAcceptTask task.task_sid s.notes,
       ClientEffect.notify
         ("Accepted " ++ task.risk_level ++ " priority task for " ++ task.user_alias)
         "success",
       (if task.session_type = SessionType.chat ∨ task.session_type = SessionType.emergency
        then ClientEffect.navigateTo ("/conversation/" ++ task.id)
        else ClientEffect.notify "Incoming voice call - please answer your phone" "info"),
       ClientEffect.fetchTasks ])

/-- `getPriorityColor` from `src/TaskQueue.tsx` (parameter `risk_level`). -/
def getPriorityColor (risk_level : String) : String :=
  if risk_level = "critical" then "error"
  else if risk_level = "high" then "warning"
  else if risk_level = "medium" then "info"
  else "success"

end TaskQueueUI

namespace DashboardUI

/-- `getPriorityColor` from the Dashboard component (parameter `priority`). -/
def getPriorityColor (priority : String) : String :=
  if priority = "critical" then "error"
  else if priority = "high" then "warning"
  else if priority = "medium" then "info"
  else "success"

end DashboardUI

/-! ## Part II: the escalation task queue and assignment engine

Modelled from the spec: §§3-6 describe a backend core (TaskRecord Store,
Priority Index, Assignment Coordinator, Wait-Time Estimator, Presence
Tracker) that the client under `src/` calls but does not implement.  The
definitions below follow the spec's words for each of those components. -/

/-- `riskLevel` of a TaskRecord: ordinal, `critical` is highest urgency. -/
inductive RiskLevel
  | low
  | medium
  | high
  | critical
  deriving DecidableEq, Repr

/-- The ordinal rank of a risk level (`critical` highest). -/
def RiskLevel.rank : RiskLevel → Nat
  | .low => 0
  | .medium => 1
  | .high => 2
  | .critical => 3

/-- The five task states of the §4.3 state machine. -/
inductive TaskState
  | Open
  | Offered
  | Assigned
  | Withdrawn
  | Expired
  deriving DecidableEq, Repr

/-- Modelled from the spec: §3 TaskRecord.  Identifiers are opaque, so ids
and session ids are `Nat`; `priority` is an integer with higher = more
urgent; `createdAt` is a timestamp set at creation. -/
structure TaskRecord where
  id : Nat
  externalSessionId : Nat
  riskLevel : RiskLevel
  priority : Int
  createdAt : Nat
  state : TaskState
  assignedMentorId : Option Nat
  deriving DecidableEq, Repr

/-- Modelled from the spec: the shared state the core operates on — the
TaskRecord Store (`tasks`), the MentorPresence data (`currentAssignment`,
`connected`, `lastSeenAt` per mentor id), a logical clock, the configured
grace period (§4.6), and the moving average of time-to-accept per risk
level used by the Wait-Time Estimator (§4.4).  There is no materialized
counter or stored estimate: dashboard counts and wait-time estimates are
functions of this state. -/
structure CoreState where
  tasks : List TaskRecord
  currentAssignment : Nat → Option Nat
  connected : Nat → Bool
  lastSeenAt : Nat → Nat
  clock : Nat
  gracePeriod : Nat
  avgAccept : RiskLevel → Nat

/-- The initial state: empty store, no assignments, nobody connected. -/
def CoreState.init (grace : Nat) (avg : RiskLevel → Nat) : CoreState :=
  { tasks := []
    currentAssignment := fun _ => none
    connected := fun _ => false
    lastSeenAt := fun _ => 0
    clock := 0
    gracePeriod := grace
    avgAccept := avg }

/-- Results of the `Accept(taskId, mentorId)` call (§4.3, §7). -/
inductive AcceptResult
  | Success
  | AlreadyTaken
  | MentorBusy
  | NotFound
  deriving DecidableEq, Repr

/-- Modelled from the spec: the Accept algorithm of §4.3.
1. reject with `MentorBusy` if the caller already holds a
   `currentAssignment`; 2. atomically check-and-set: if the task is `Open`
   or `Offered`, set `state = Assigned`, `assignedMentorId`, and the
   mentor's `currentAssignment` in one indivisible operation; otherwise
   return `AlreadyTaken`.  Unknown task ids give `NotFound`. -/
def accept (s : CoreState) (taskId mentorId : Nat) : CoreState × AcceptResult :=
  match s.currentAssignment mentorId with
  | some _ => (s, AcceptResult.MentorBusy)
  | none =>
    match s.tasks.find? (fun u => u.id == taskId) with
    | none => (s, AcceptResult.NotFound)
    | some t =>
      if t.state = TaskState.Open ∨ t.state = TaskState.Offered then
        ({ s with
            tasks := s.tasks.map (fun u =>
              if u.id = taskId then
                { u with state := TaskState.Assigned, assignedMentorId := some mentorId }
              else u)
            currentAssignment := fun m =>
              if m = mentorId then some taskId else s.currentAssignment m },
         AcceptResult.Success)
      else (s, AcceptResult.AlreadyTaken)

/-- Modelled from the spec: `Open → Offered` push by the Event Broadcaster
(§4.3) — informational only, does not reserve the task. -/
def offerTask (s : CoreState) (taskId : Nat) : CoreState :=
  { s with
    tasks := s.tasks.map (fun u =>
      if u.id = taskId ∧ u.state = TaskState.Open then
        { u with state := TaskState.Offered }
      else u) }

/-- Modelled from the spec: `Open/Offered → Withdrawn` on explicit
cancellation from the intake collaborator (§4.3). -/
def withdrawTask (s : CoreState) (taskId : Nat) : CoreState :=
  { s with
    tasks := s.tasks.map (fun u =>
      if u.id = taskId ∧ (u.state = TaskState.Open ∨ u.state = TaskState.Offered) then
        { u with state := TaskState.Withdrawn }
      else u) }

/-- Modelled from the spec: `Open/Offered → Expired` when a task has waited
longer than the configured ceiling (§4.3). -/
def expireTask (s : CoreState) (taskId : Nat) : CoreState :=
  { s with
    tasks := s.tasks.map (fun u =>
      if u.id = taskId ∧ (u.state = TaskState.Open ∨ u.state = TaskState.Offered) then
        { u with state := TaskState.Expired }
      else u) }

/-- Modelled from the spec: `Connect(mentorId)` of the Presence Tracker. -/
def connectMentor (s : CoreState) (m : Nat) : CoreState :=
  { s with
    connected := fun x => if x = m then true else s.connected x
    lastSeenAt := fun x => if x = m then s.clock else s.lastSeenAt x }

/-- Modelled from the spec: `Disconnect(mentorId)` of the Presence Tracker;
records the disconnect time so the grace period can be measured. -/
def disconnectMentor (s : CoreState) (m : Nat) : CoreState :=
  { s with
    connected := fun x => if x = m then false else s.connected x
    lastSeenAt := fun x => if x = m then s.clock else s.lastSeenAt x }

/-- Modelled from the spec: the re-queue of §4.6 — when a disconnected
mentor's grace period has elapsed, the task they held goes `Assigned →
Open` with `id` and `createdAt` untouched, and the mentor's
`currentAssignment` is cleared.  The guards (disconnected, grace elapsed,
holding this task) live on the `Step.requeue` transition. -/
def requeueTask (s : CoreState) (m taskId : Nat) : CoreState :=
  { s with
    tasks := s.tasks.map (fun u =>
      if u.id = taskId then
        { u with state := TaskState.Open, assignedMentorId := none }
      else u)
    currentAssignment := fun x => if x = m then none else s.currentAssignment x }

/-- Modelled from the spec: the operations of the core as a transition
relation.  `Accept` calls are serialized per task by the coordinator's
critical section (§5), so concurrency is arrival-order interleaving of
these atomic steps. -/
inductive Step : CoreState → CoreState → Prop
  | create (s : CoreState) (r : TaskRecord)
      (hfresh : ∀ t ∈ s.tasks, t.id ≠ r.id)
      (hstate : r.state = TaskState.Open)
      (hass : r.assignedMentorId = none) :
      Step s { s with tasks := s.tasks ++ [r] }
  | offer (s : CoreState) (taskId : Nat) : Step s (offerTask s taskId)
  | acceptCall (s : CoreState) (taskId mentorId : Nat) :
      Step s (accept s taskId mentorId).1
  | withdraw (s : CoreState) (taskId : Nat) : Step s (withdrawTask s taskId)
  | expire (s : CoreState) (taskId : Nat) : Step s (expireTask s taskId)
  | connect (s : CoreState) (m : Nat) : Step s (connectMentor s m)
  | disconnect (s : CoreState) (m : Nat) : Step s (disconnectMentor s m)
  | tick (s : CoreState) : Step s { s with clock := s.clock + 1 }
  | requeue (s : CoreState) (m taskId : Nat)
      (hca : s.currentAssignment m = some taskId)
      (hdis : s.connected m = false)
      (hgrace : s.lastSeenAt m + s.gracePeriod ≤ s.clock) :
      Step s (requeueTask s m taskId)

/-- States reachable from an initial state by core operations. -/
inductive Reachable : CoreState → Prop
  | init (grace : Nat) (avg : RiskLevel → Nat) : Reachable (CoreState.init grace avg)
  | step {s s' : CoreState} : Reachable s → Step s s' → Reachable s'

/-- Modelled from the spec: the Priority Index comparator of §4.2 — the
total order keyed by `(riskLevel desc, priority desc, createdAt asc)`.
`ranksAhead a b` means `a` is strictly ahead of `b`. -/
def ranksAhead (a b : TaskRecord) : Prop :=
  b.riskLevel.rank < a.riskLevel.rank ∨
    (a.riskLevel.rank = b.riskLevel.rank ∧
      (b.priority < a.priority ∨
        (a.priority = b.priority ∧ a.createdAt < b.createdAt)))

instance (a b : TaskRecord) : Decidable (ranksAhead a b) := by
  unfold ranksAhead
  exact inferInstance

/-- The `Open` records of the store — the carrier of the Priority Index
(§4.2: the index must never return a record not in `Open` state). -/
def openTasks (s : CoreState) : List TaskRecord :=
  s.tasks.filter (fun t => t.state == TaskState.Open)

/-- Modelled from the spec: `PeekTop` of the Priority Index (§4.2) —
the `Open` record that ranks ahead of every other `Open` record. -/
def peekTop (s : CoreState) : Option TaskRecord :=
  match openTasks s with
  | [] => none
  | t :: ts => some (ts.foldl (fun best u => if ranksAhead u best then u else best) t)

/-- The open tasks strictly ahead of `t` in the Priority Index. -/
def tasksAhead (s : CoreState) (t : TaskRecord) : List TaskRecord :=
  (openTasks s).filter (fun u => decide (ranksAhead u t))

/-- The queue depth ahead of `t` (§4.4). -/
def depthAhead (s : CoreState) (t : TaskRecord) : Nat :=
  (tasksAhead s t).length

/-- Modelled from the spec: the Wait-Time Estimator of §4.4.  `Estimate`
is computed on each read from the queue ahead of the task and the moving
average of historical time-to-accept per `riskLevel` (`avgAccept`); it is
not stored in any record.  The estimate accumulates the per-risk-level
average over the tasks ahead, so the queue depth ahead and the moving
averages fully determine it and the monotonicity §4.4 mandates holds. -/
def estimate (s : CoreState) (t : TaskRecord) : Nat :=
  ((tasksAhead s t).map (fun u => s.avgAccept u.riskLevel)).sum

/-- Modelled from the spec: `active_tasks` of §6 — tasks currently
`Open`/`Offered`, computed by querying the store. -/
def activeTasks (s : CoreState) : Nat :=
  (s.tasks.filter (fun t =>
    t.state == TaskState.Open || t.state == TaskState.Offered)).length

/-- Modelled from the spec: `crisis_alerts` of §6 — the count of
`riskLevel = critical` records in `Open`/`Offered`, computed by querying
the store (no materialized view: `CoreState` stores no counter). -/
def crisisAlerts (s : CoreState) : Nat :=
  (s.tasks.filter (fun t =>
    t.riskLevel == RiskLevel.critical &&
      (t.state == TaskState.Open || t.state == TaskState.Offered))).length

/-- N concurrent `Accept` calls on one task, serialized by the per-task
critical section in arrival order (§5): each caller's result and the final
state. -/
def runAccepts (taskId : Nat) : CoreState → List Nat → CoreState × List AcceptResult
  | s, [] => (s, [])
  | s, m :: ms =>
    let p := accept s taskId m
    let q := runAccepts taskId p.1 ms
    (q.1, p.2 :: q.2)

/-- The inductive invariant of the core: task ids are unique in the store;
`assignedMentorId` is non-null exactly on `Assigned` records (§3); a
mentor's `currentAssignment` points at an `Assigned` record assigned to
that mentor, and conversely every `Assigned` record is pointed at by its
mentor's `currentAssignment`. -/
structure CoreInv (s : CoreState) : Prop where
  uniq : s.tasks.Pairwise (fun a b => a.id ≠ b.id)
  mentorIff : ∀ t ∈ s.tasks, (t.assignedMentorId ≠ none ↔ t.state = TaskState.Assigned)
  caSound : ∀ m taskId, s.currentAssignment m = some taskId →
    ∃ t ∈ s.tasks, t.id = taskId ∧ t.state = TaskState.Assigned ∧
      t.assignedMentorId = some m
  caComplete : ∀ t ∈ s.tasks, ∀ m, t.assignedMentorId = some m →
    s.currentAssignment m = some t.id

/-- The §3 invariant claim, formalized: "no record re-enters Open from
Assigned without passing through Withdrawn".  A single core transition
passes through no intermediate state, so the claim requires that no step
takes an `Assigned` record directly to `Open`. -/
def noDirectAssignedToOpen : Prop :=
  ∀ s s' : CoreState, Reachable s → Step s s' →
    ∀ t ∈ s.tasks, ∀ t' ∈ s'.tasks, t'.id = t.id →
      t.state = TaskState.Assigned → t'.state ≠ TaskState.Open

/-- The transitions the spec's state machine allows for a single record in
one core step: the §4.3 edges out of `Open`/`Offered`, the §4.6 re-queue
edge `Assigned → Open`, or no change. -/
def allowedEdge (a b : TaskState) : Prop :=
  a = b ∨
    (a = TaskState.Open ∧ b = TaskState.Offered) ∨
    ((a = TaskState.Open ∨ a = TaskState.Offered) ∧
      (b = TaskState.Assigned ∨ b = TaskState.Withdrawn ∨ b = TaskState.Expired)) ∨
    (a = TaskState.Assigned ∧ b = TaskState.Open)

/-- A sample moving-average table for concrete runs. -/
def demoAvg : RiskLevel → Nat := fun _ => 4

/-- A freshly created `Open` record with the given id, risk level,
priority and creation time. -/
def mkOpenTask (i : Nat) (rl : RiskLevel) (pr : Int) (ct : Nat) : TaskRecord :=
  { id := i
    externalSessionId := 100 + i
    riskLevel := rl
    priority := pr
    createdAt := ct
    state := TaskState.Open
    assignedMentorId := none }

/-- Concrete run, step 0: initial state with a one-tick grace period. -/
def rq0 : CoreState := CoreState.init 1 demoAvg

/-- Step 1: the intake collaborator creates a critical task. -/
def rq1 : CoreState := { rq0 with tasks := rq0.tasks ++ [mkOpenTask 0 RiskLevel.critical 5 0] }

/-- Step 2: mentor 7 accepts task 0. -/
def rq2 : CoreState := (accept rq1 0 7).1

/-- Step 3: mentor 7 disconnects. -/
def rq3 : CoreState := disconnectMentor rq2 7

/-- Step 4: the clock advances past the grace period. -/
def rq4 : CoreState := { rq3 with clock := rq3.clock + 1 }

/-- Step 5: the coordinator re-queues mentor 7's abandoned task. -/
def rq5 : CoreState := requeueTask rq4 7 0

/-- Scenario state (§8): three tasks created in the order low, critical,
high. -/
def qs0 : CoreState := CoreState.init 2 demoAvg

/-- Scenario after creating the `low` task. -/
def qs1 : CoreState := { qs0 with tasks := qs0.tasks ++ [mkOpenTask 0 RiskLevel.low 1 0] }

/-- Scenario after creating the `critical` task. -/
def qs2 : CoreState := { qs1 with tasks := qs1.tasks ++ [mkOpenTask 1 RiskLevel.critical 9 1] }

/-- Scenario after creating the `high` task. -/
def qs3 : CoreState := { qs2 with tasks := qs2.tasks ++ [mkOpenTask 2 RiskLevel.high 7 2] }

/-! ## Helper lemmas: the priority order -/

theorem RiskLevel.rank_inj : ∀ (a b : RiskLevel), a.rank = b.rank → a = b := by
  intro a b
  cases a <;> cases b <;> simp [RiskLevel.rank]

theorem RiskLevel.rank_lt_of_ne_critical :
    ∀ a : RiskLevel, a ≠ RiskLevel.critical → a.rank < 3 := by
  intro a
  cases a <;> simp [RiskLevel.rank]

theorem ranksAhead_irrefl (a : TaskRecord) : ¬ ranksAhead a a := by
  unfold ranksAhead
  omega

theorem ranksAhead_trans {a b c : TaskRecord}
    (h1 : ranksAhead a b) (h2 : ranksAhead b c) : ranksAhead a c := by
  unfold ranksAhead at h1 h2 ⊢
  omega

theorem ranksAhead_neg_trans {a b c : TaskRecord}
    (h1 : ¬ ranksAhead a b) (h2 : ¬ ranksAhead b c) : ¬ ranksAhead a c := by
  unfold ranksAhead at h1 h2 ⊢
  omega

theorem ranksAhead_total (a b : TaskRecord) :
    ranksAhead a b ∨ ranksAhead b a ∨
      (a.riskLevel = b.riskLevel ∧ a.priority = b.priority ∧ a.createdAt = b.createdAt) := by
  rcases Nat.lt_trichotomy a.riskLevel.rank b.riskLevel.rank with hr | hr | hr
  · exact Or.inr (Or.inl (Or.inl hr))
  · rcases lt_trichotomy a.priority b.priority with hp | hp | hp
    · exact Or.inr (Or.inl (Or.inr ⟨hr.symm, Or.inl hp⟩))
    · rcases Nat.lt_trichotomy a.createdAt b.createdAt with hc | hc | hc
      · exact Or.inl (Or.inr ⟨hr, Or.inr ⟨hp, hc⟩⟩)
      · exact Or.inr (Or.inr ⟨RiskLevel.rank_inj _ _ hr, hp, hc⟩)
      · exact Or.inr (Or.inl (Or.inr ⟨hr.symm, Or.inr ⟨hp.symm, hc⟩⟩))
    · exact Or.inl (Or.inr ⟨hr, Or.inl hp⟩)
  · exact Or.inl (Or.inl hr)

/-! ## Helper lemmas: lists of task records -/

theorem pairwise_id_eq {l : List TaskRecord}
    (h : l.Pairwise (fun a b => a.id ≠ b.id)) {t u : TaskRecord}
    (ht : t ∈ l) (hu : u ∈ l) (hid : t.id = u.id) : t = u := by
  by_contra hne
  exact (List.Pairwise.forall (by intro x y hxy; exact hxy.symm) h ht hu hne) hid

theorem find?_of_mem_uniq {l : List TaskRecord}
    (h : l.Pairwise (fun a b => a.id ≠ b.id)) {t : TaskRecord} (ht : t ∈ l) :
    l.find? (fun u => u.id == t.id) = some t := by
  induction l with
  | nil => cases ht
  | cons a l ih =>
    rcases List.mem_cons.mp ht with h1 | h1
    · subst h1
      simp [List.find?_cons]
    · have ha : a.id ≠ t.id := (List.pairwise_cons.mp h).1 t h1
      have := ih (List.pairwise_cons.mp h).2 h1
      simp [List.find?_cons, ha, this]

theorem pairwise_map_id {l : List TaskRecord} {f : TaskRecord → TaskRecord}
    (hf : ∀ u, (f u).id = u.id)
    (h : l.Pairwise (fun a b => a.id ≠ b.id)) :
    (l.map f).Pairwise (fun a b => a.id ≠ b.id) := by
  rw [List.pairwise_map]
  exact h.imp (fun hab => by simpa [hf] using hab)

theorem mem_map_id_eq {l : List TaskRecord} {f : TaskRecord → TaskRecord}
    (hf : ∀ u, (f u).id = u.id)
    (huniq : l.Pairwise (fun a b => a.id ≠ b.id))
    {t t' : TaskRecord} (ht : t ∈ l) (ht' : t' ∈ l.map f) (hid : t'.id = t.id) :
    t' = f t := by
  rcases List.mem_map.mp ht' with ⟨u, hu, hut⟩
  have hu_id : u.id = t.id := by
    rw [← hut, hf u] at hid
    exact hid
  have := pairwise_id_eq huniq hu ht hu_id
  subst this
  exact hut.symm

theorem find?_map_id {l : List TaskRecord} (f : TaskRecord → TaskRecord)
    (hf : ∀ u, (f u).id = u.id) (taskId : Nat) :
    (l.map f).find? (fun u => u.id == taskId) =
      (l.find? (fun u => u.id == taskId)).map f := by
  induction l with
  | nil => rfl
  | cons a l ih =>
    by_cases h : a.id = taskId
    · simp [List.find?_cons, hf, h]
    · simp [List.find?_cons, hf, h, ih]

/-! ## Helper lemmas: the Accept call -/

theorem accept_of_busy {s : CoreState} {taskId m x : Nat}
    (h : s.currentAssignment m = some x) :
    accept s taskId m = (s, AcceptResult.MentorBusy) := by
  unfold accept
  rw [h]

theorem accept_of_notfound {s : CoreState} {taskId m : Nat}
    (h1 : s.currentAssignment m = none)
    (h2 : s.tasks.find? (fun u => u.id == taskId) = none) :
    accept s taskId m = (s, AcceptResult.NotFound) := by
  unfold accept
  rw [h1, h2]

theorem accept_of_stale {s : CoreState} {taskId m : Nat} {t : TaskRecord}
    (h1 : s.currentAssignment m = none)
    (h2 : s.tasks.find? (fun u => u.id == taskId) = some t)
    (h3 : ¬ (t.state = TaskState.Open ∨ t.state = TaskState.Offered)) :
    accept s taskId m = (s, AcceptResult.AlreadyTaken) := by
  unfold accept
  rw [h1, h2]
  dsimp only
  rw [if_neg h3]

theorem accept_of_fresh {s : CoreState} {taskId m : Nat} {t : TaskRecord}
    (h1 : s.currentAssignment m = none)
    (h2 : s.tasks.find? (fun u => u.id == taskId) = some t)
    (h3 : t.state = TaskState.Open ∨ t.state = TaskState.Offered) :
    accept s taskId m =
      ({ s with
          tasks := s.tasks.map (fun u =>
            if u.id = taskId then
              { u with state := TaskState.Assigned, assignedMentorId := some m }
            else u)
          currentAssignment := fun x =>
            if x = m then some taskId else s.currentAssignment x },
       AcceptResult.Success) := by
  unfold accept
  rw [h1, h2]
  dsimp only
  rw [if_pos h3]

/-! ## The inductive invariant -/

theorem inv_init (grace : Nat) (avg : RiskLevel → Nat) :
    CoreInv (CoreState.init grace avg) := by
  constructor
  · exact List.Pairwise.nil
  · intro t ht
    cases ht
  · intro m tid h
    exact Option.noConfusion h
  · intro t ht m hm
    cases ht

theorem inv_create {s : CoreState} (hs : CoreInv s) (r : TaskRecord)
    (hfresh : ∀ t ∈ s.tasks, t.id ≠ r.id)
    (hstate : r.state = TaskState.Open)
    (hass : r.assignedMentorId = none) :
    CoreInv { s with tasks := s.tasks ++ [r] } := by
  constructor
  · refine List.pairwise_append.mpr ⟨hs.uniq, List.pairwise_singleton _ _, ?_⟩
    intro a ha b hb
    have hb' : b = r := by simpa using hb
    subst hb'
    exact hfresh a ha
  · intro t ht
    rcases List.mem_append.mp ht with h | h
    · exact hs.mentorIff t h
    · have h' : t = r := by simpa using h
      subst h'
      rw [hass, hstate]
      simp
  · intro m tid h
    rcases hs.caSound m tid h with ⟨t1, ht1, h1, h2, h3⟩
    exact ⟨t1, List.mem_append.mpr (Or.inl ht1), h1, h2, h3⟩
  · intro t ht m hm
    rcases List.mem_append.mp ht with h | h
    · exact hs.caComplete t h m hm
    · have h' : t = r := by simpa using h
      subst h'
      rw [hass] at hm
      cases hm

theorem inv_map_state {s : CoreState} (hs : CoreInv s)
    (p : TaskRecord → Prop) [DecidablePred p] (c : TaskState)
    (hc : c ≠ TaskState.Assigned)
    (hp : ∀ u, p u → u.state = TaskState.Open ∨ u.state = TaskState.Offered) :
    CoreInv { s with
      tasks := s.tasks.map (fun u => if p u then { u with state := c } else u) } := by
  have hid : ∀ u : TaskRecord,
      ((if p u then { u with state := c } else u) : TaskRecord).id = u.id := by
    intro u
    split <;> rfl
  have hself : ∀ u ∈ s.tasks, u.state = TaskState.Assigned →
      (if p u then { u with state := c } else u) = u := by
    intro u hu hA
    rw [if_neg]
    intro hpu
    rcases hp u hpu with h | h <;> rw [hA] at h <;> cases h
  constructor
  · exact pairwise_map_id hid hs.uniq
  · intro t' ht'
    rcases List.mem_map.mp ht' with ⟨u, hu, huf⟩
    subst huf
    by_cases hpu : p u
    · have hno : u.assignedMentorId = none := by
        by_contra hne
        have hA := (hs.mentorIff u hu).mp hne
        rcases hp u hpu with h | h <;> rw [hA] at h <;> cases h
      rw [if_pos hpu]
      simp [hno, hc]
    · rw [if_neg hpu]
      exact hs.mentorIff u hu
  · intro m taskId hca
    rcases hs.caSound m taskId hca with ⟨t, ht, hid', hstate, hm⟩
    exact ⟨t, List.mem_map.mpr ⟨t, ht, hself t ht hstate⟩, hid', hstate, hm⟩
  · intro t' ht' m hm
    rcases List.mem_map.mp ht' with ⟨u, hu, huf⟩
    subst huf
    by_cases hpu : p u
    · rw [if_pos hpu] at hm
      have hA := (hs.mentorIff u hu).mp (by simp at hm ⊢; rw [hm]; simp)
      rcases hp u hpu with h | h <;> rw [hA] at h <;> cases h
    · rw [if_neg hpu] at hm ⊢
      exact hs.caComplete u hu m hm

theorem inv_offer {s : CoreState} (hs : CoreInv s) (taskId : Nat) :
    CoreInv (offerTask s taskId) :=
  inv_map_state hs (fun u => u.id = taskId ∧ u.state = TaskState.Open)
    TaskState.Offered (fun h => TaskState.noConfusion h) (fun _ hu => Or.inl hu.2)

theorem inv_withdraw {s : CoreState} (hs : CoreInv s) (taskId : Nat) :
    CoreInv (withdrawTask s taskId) :=
  inv_map_state hs
    (fun u => u.id = taskId ∧ (u.state = TaskState.Open ∨ u.state = TaskState.Offered))
    TaskState.Withdrawn (fun h => TaskState.noConfusion h) (fun _ hu => hu.2)

theorem inv_expire {s : CoreState} (hs : CoreInv s) (taskId : Nat) :
    CoreInv (expireTask s taskId) :=
  inv_map_state hs
    (fun u => u.id = taskId ∧ (u.state = TaskState.Open ∨ u.state = TaskState.Offered))
    TaskState.Expired (fun h => TaskState.noConfusion h) (fun _ hu => hu.2)

theorem inv_frame {s s' : CoreState} (hs : CoreInv s)
    (ht : s'.tasks = s.tasks) (hca : s'.currentAssignment = s.currentAssignment) :
    CoreInv s' := by
  constructor
  · rw [ht]
    exact hs.uniq
  · rw [ht]
    exact hs.mentorIff
  · rw [ht, hca]
    exact hs.caSound
  · rw [ht, hca]
    exact hs.caComplete

theorem inv_accept {s : CoreState} (hs : CoreInv s) (taskId mentorId : Nat) :
    CoreInv (accept s taskId mentorId).1 := by
  cases hca : s.currentAssignment mentorId with
  | some x =>
    rw [accept_of_busy hca]
    exact hs
  | none =>
    cases hf : s.tasks.find? (fun u => u.id == taskId) with
    | none =>
      rw [accept_of_notfound hca hf]
      exact hs
    | some t =>
      by_cases hst : t.state = TaskState.Open ∨ t.state = TaskState.Offered
      · rw [accept_of_fresh hca hf hst]
        have htmem : t ∈ s.tasks := List.mem_of_find?_eq_some hf
        have htid : t.id = taskId := by simpa using List.find?_some hf
        have hid : ∀ u : TaskRecord,
            ((if u.id = taskId then
                { u with state := TaskState.Assigned, assignedMentorId := some mentorId }
              else u) : TaskRecord).id = u.id := by
          intro u
          split <;> rfl
        constructor
        · exact pairwise_map_id hid hs.uniq
        · intro t' ht'
          rcases List.mem_map.mp ht' with ⟨u, hu, huf⟩
          subst huf
          by_cases hpu : u.id = taskId
          · rw [if_pos hpu]
            simp
          · rw [if_neg hpu]
            exact hs.mentorIff u hu
        · intro m' tid' hcam
          simp only at hcam
          by_cases hm : m' = mentorId
          · rw [if_pos hm] at hcam
            have htid2 : tid' = taskId := by
              injection hcam with h
              exact h.symm
            refine ⟨{ t with state := TaskState.Assigned, assignedMentorId := some mentorId },
              List.mem_map.mpr ⟨t, htmem, by rw [if_pos htid]⟩, ?_, rfl, ?_⟩
            · show t.id = tid'
              rw [htid, htid2]
            · show some mentorId = some m'
              rw [hm]
          · rw [if_neg hm] at hcam
            rcases hs.caSound m' tid' hcam with ⟨t1, ht1, h1, h2, h3⟩
            have hne : t1.id ≠ taskId := by
              intro hcontra
              have heq : t1 = t := pairwise_id_eq hs.uniq ht1 htmem (by rw [hcontra, htid])
              subst heq
              rcases hst with h | h <;> rw [h2] at h <;> cases h
            exact ⟨t1, List.mem_map.mpr ⟨t1, ht1, by rw [if_neg hne]⟩, h1, h2, h3⟩
        · intro t' ht' m hm
          rcases List.mem_map.mp ht' with ⟨u, hu, huf⟩
          subst huf
          by_cases hpu : u.id = taskId
          · rw [if_pos hpu] at hm ⊢
            have hmm : m = mentorId := by
              simp at hm
              exact hm.symm
            subst hmm
            simp [hpu]
          · rw [if_neg hpu] at hm ⊢
            have hold := hs.caComplete u hu m hm
            have hne : m ≠ mentorId := by
              intro hcontra
              subst hcontra
              rw [hca] at hold
              cases hold
            simp only
            rw [if_neg hne]
            exact hold
      · rw [accept_of_stale hca hf hst]
        exact hs

theorem inv_requeue {s : CoreState} (hs : CoreInv s) (m taskId : Nat)
    (hca : s.currentAssignment m = some taskId) :
    CoreInv (requeueTask s m taskId) := by
  unfold requeueTask
  have hid : ∀ u : TaskRecord,
      ((if u.id = taskId then
          { u with state := TaskState.Open, assignedMentorId := none }
        else u) : TaskRecord).id = u.id := by
    intro u
    split <;> rfl
  rcases hs.caSound m taskId hca with ⟨t0, ht0, ht0id, ht0st, ht0m⟩
  constructor
  · exact pairwise_map_id hid hs.uniq
  · intro t' ht'
    rcases List.mem_map.mp ht' with ⟨u, hu, huf⟩
    subst huf
    by_cases hpu : u.id = taskId
    · rw [if_pos hpu]
      simp
    · rw [if_neg hpu]
      exact hs.mentorIff u hu
  · intro m' tid hcam
    simp only at hcam
    by_cases hm : m' = m
    · subst hm
      rw [if_pos rfl] at hcam
      cases hcam
    · rw [if_neg hm] at hcam
      rcases hs.caSound m' tid hcam with ⟨t1, ht1, h1, h2, h3⟩
      have hne : t1.id ≠ taskId := by
        intro hcontra
        have heq : t1 = t0 := pairwise_id_eq hs.uniq ht1 ht0 (by rw [hcontra, ht0id])
        subst heq
        rw [h3] at ht0m
        cases ht0m
        exact hm rfl
      exact ⟨t1, List.mem_map.mpr ⟨t1, ht1, by rw [if_neg hne]⟩, h1, h2, h3⟩
  · intro t' ht' m' hm'
    rcases List.mem_map.mp ht' with ⟨u, hu, huf⟩
    subst huf
    by_cases hpu : u.id = taskId
    · rw [if_pos hpu] at hm'
      simp at hm'
    · rw [if_neg hpu] at hm' ⊢
      have hold := hs.caComplete u hu m' hm'
      have hne : m' ≠ m := by
        intro hcontra
        subst hcontra
        rw [hca] at hold
        cases hold
        exact hpu rfl
      simp only
      rw [if_neg hne]
      exact hold

theorem inv_step {s s' : CoreState} (hs : CoreInv s) (h : Step s s') : CoreInv s' := by
  cases h with
  | create r hfresh hstate hass => exact inv_create hs r hfresh hstate hass
  | offer taskId => exact inv_offer hs taskId
  | acceptCall taskId mentorId => exact inv_accept hs taskId mentorId
  | withdraw taskId => exact inv_withdraw hs taskId
  | expire taskId => exact inv_expire hs taskId
  | connect m => exact inv_frame hs rfl rfl
  | disconnect m => exact inv_frame hs rfl rfl
  | tick => exact inv_frame hs rfl rfl
  | requeue m taskId hca hdis hgrace => exact inv_requeue hs m taskId hca

theorem reachable_inv {s : CoreState} (h : Reachable s) : CoreInv s := by
  induction h with
  | init grace avg => exact inv_init grace avg
  | step hr hst ih => exact inv_step ih hst

/-! ## Helper lemmas: PeekTop -/

theorem ranksAhead_asymm {a b : TaskRecord} (h : ranksAhead a b) : ¬ ranksAhead b a := by
  unfold ranksAhead at h ⊢
  omega

theorem foldl_best_mem (ts : List TaskRecord) (t : TaskRecord) :
    ts.foldl (fun best u => if ranksAhead u best then u else best) t = t ∨
    ts.foldl (fun best u => if ranksAhead u best then u else best) t ∈ ts := by
  induction ts generalizing t with
  | nil => exact Or.inl rfl
  | cons a ts ih =>
    rw [List.foldl_cons]
    by_cases hc : ranksAhead a t
    · rw [if_pos hc]
      rcases ih a with h | h
      · exact Or.inr (by rw [h]; exact List.mem_cons_self a ts)
      · exact Or.inr (List.mem_cons_of_mem a h)
    · rw [if_neg hc]
      rcases ih t with h | h
      · exact Or.inl h
      · exact Or.inr (List.mem_cons_of_mem a h)

theorem foldl_best_not_ahead (ts : List TaskRecord) (t : TaskRecord) :
    ∀ u, (u = t ∨ u ∈ ts) →
      ¬ ranksAhead u (ts.foldl (fun best v => if ranksAhead v best then v else best) t) := by
  induction ts generalizing t with
  | nil =>
    intro u hu
    rcases hu with h | h
    · subst h
      exact ranksAhead_irrefl u
    · cases h
  | cons a ts ih =>
    intro u hu
    rw [List.foldl_cons]
    by_cases hc : ranksAhead a t
    · rw [if_pos hc]
      rcases hu with h | h
      · rw [h]
        exact ranksAhead_neg_trans (ranksAhead_asymm hc) (ih a a (Or.inl rfl))
      · rcases List.mem_cons.mp h with h | h
        · exact ih a u (Or.inl h)
        · exact ih a u (Or.inr h)
    · rw [if_neg hc]
      rcases hu with h | h
      · exact ih t u (Or.inl h)
      · rcases List.mem_cons.mp h with h | h
        · rw [h]
          exact ranksAhead_neg_trans hc (ih t t (Or.inl rfl))
        · exact ih t u (Or.inr h)

theorem peekTop_spec {s : CoreState} {t : TaskRecord} (h : peekTop s = some t) :
    t ∈ openTasks s ∧ ∀ u ∈ openTasks s, ¬ ranksAhead u t := by
  unfold peekTop at h
  cases hl : openTasks s with
  | nil =>
    rw [hl] at h
    cases h
  | cons a ts =>
    rw [hl] at h
    dsimp only at h
    injection h with h
    constructor
    · rw [← h]
      rcases foldl_best_mem ts a with h2 | h2
      · rw [h2]
        exact List.mem_cons_self a ts
      · exact List.mem_cons_of_mem a h2
    · intro u hu
      rw [← h]
      rcases List.mem_cons.mp hu with h2 | h2
      · exact foldl_best_not_ahead ts a u (Or.inl h2)
      · exact foldl_best_not_ahead ts a u (Or.inr h2)

/-- C3: the Priority Index comparator is a total order over records keyed
by `(riskLevel desc, priority desc, createdAt asc)` (records comparing
equal agree on all three keys); `PeekTop` returns an `Open` record that
nothing outranks, hence a critical-risk record ahead of low/high ones
regardless of creation order, and among equal `riskLevel` and `priority`
the one with the earliest `createdAt`. -/
theorem priority_index_total_order_peekTop :
    (∀ a b : TaskRecord, ranksAhead a b ∨ ranksAhead b a ∨
      (a.riskLevel = b.riskLevel ∧ a.priority = b.priority ∧ a.createdAt = b.createdAt)) ∧
    (∀ a b c : TaskRecord, ranksAhead a b → ranksAhead b c → ranksAhead a c) ∧
    (∀ (s : CoreState) (t : TaskRecord), peekTop s = some t →
      t ∈ openTasks s ∧ ∀ u ∈ openTasks s, ¬ ranksAhead u t) ∧
    (∀ (s : CoreState) (t u : TaskRecord), peekTop s = some t → u ∈ openTasks s →
      u.riskLevel = RiskLevel.critical → t.riskLevel = RiskLevel.critical) ∧
    (∀ (s : CoreState) (t u : TaskRecord), peekTop s = some t → u ∈ openTasks s →
      u.riskLevel = t.riskLevel → u.priority = t.priority → t.createdAt ≤ u.createdAt) := by
  refine ⟨ranksAhead_total, fun a b c => ranksAhead_trans, ?_, ?_, ?_⟩
  · intro s t h
    exact peekTop_spec h
  · intro s t u hpeek hu hcrit
    by_contra hne
    apply (peekTop_spec hpeek).2 u hu
    unfold ranksAhead
    left
    rw [hcrit]
    exact RiskLevel.rank_lt_of_ne_critical t.riskLevel hne
  · intro s t u hpeek hu hrl hp
    have hnot := (peekTop_spec hpeek).2 u hu
    unfold ranksAhead at hnot
    have hrank : u.riskLevel.rank = t.riskLevel.rank := by rw [hrl]
    omega

/-- C3 witness: in the §8 scenario (tasks created in order low, critical,
high) the record `PeekTop` returns is the critical one, and the low task
created before it does not outrank it. -/
theorem priority_index_total_order_peekTop_witness :
    ¬ ranksAhead (mkOpenTask 0 RiskLevel.low 1 0) (mkOpenTask 1 RiskLevel.critical 9 1) :=
  (priority_index_total_order_peekTop.2.2.1 qs3 (mkOpenTask 1 RiskLevel.critical 9 1) rfl).2
    (mkOpenTask 0 RiskLevel.low 1 0) (by decide)

/-- C7: the wait-time estimate is monotone in index rank — for open tasks
`a` ranking strictly ahead of `b`, `Estimate(a) ≤ Estimate(b)`.  The
estimate is a function of the state (queue ahead plus the per-risk-level
moving averages), recomputed on each read; no record stores it. -/
theorem estimate_monotone {s : CoreState} {a b : TaskRecord}
    (ha : a ∈ openTasks s) (hb : b ∈ openTasks s) (hab : ranksAhead a b) :
    estimate s a ≤ estimate s b := by
  unfold estimate tasksAhead
  apply List.Sublist.sum_le_sum
  · apply List.Sublist.map
    apply List.monotone_filter_right
    intro u hu
    simp only [decide_eq_true_eq] at hu ⊢
    exact ranksAhead_trans hu hab
  · intro x _
    exact Nat.zero_le x

/-- C7 witness: in the scenario state, the critical task (rank 1) reports
an estimate no longer than the low task behind it. -/
theorem estimate_monotone_witness :
    estimate qs3 (mkOpenTask 1 RiskLevel.critical 9 1) ≤
      estimate qs3 (mkOpenTask 0 RiskLevel.low 1 0) :=
  estimate_monotone (by decide) (by decide) (by decide)

/-! ## Concrete reachable runs -/

theorem reachable_rq1 : Reachable rq1 :=
  Reachable.step (Reachable.init 1 demoAvg)
    (Step.create rq0 (mkOpenTask 0 RiskLevel.critical 5 0)
      (by intro t ht; cases ht) rfl rfl)

theorem reachable_rq2 : Reachable rq2 :=
  Reachable.step reachable_rq1 (Step.acceptCall rq1 0 7)

theorem reachable_rq3 : Reachable rq3 :=
  Reachable.step reachable_rq2 (Step.disconnect rq2 7)

theorem reachable_rq4 : Reachable rq4 :=
  Reachable.step reachable_rq3 (Step.tick rq3)

theorem reachable_qs1 : Reachable qs1 :=
  Reachable.step (Reachable.init 2 demoAvg)
    (Step.create qs0 (mkOpenTask 0 RiskLevel.low 1 0)
      (by intro t ht; cases ht) rfl rfl)

theorem reachable_qs2 : Reachable qs2 :=
  Reachable.step reachable_qs1
    (Step.create qs1 (mkOpenTask 1 RiskLevel.critical 9 1) (by decide) rfl rfl)

theorem reachable_qs3 : Reachable qs3 :=
  Reachable.step reachable_qs2
    (Step.create qs2 (mkOpenTask 2 RiskLevel.high 7 2) (by decide) rfl rfl)

/-! ## Claims about the store invariants -/

/-- C6: in every reachable state of the TaskRecord Store,
`assignedMentorId` is non-null iff the record's state is `Assigned`;
reachability is closed under every core operation (Create, Accept,
Withdraw, Expire, re-queue, presence changes), so each of them preserves
the invariant. -/
theorem assignedMentorId_iff_assigned {s : CoreState} (h : Reachable s) :
    ∀ t ∈ s.tasks, (t.assignedMentorId ≠ none ↔ t.state = TaskState.Assigned) :=
  (reachable_inv h).mentorIff

/-- C6 witness: the invariant evaluated in the reachable state `rq2` at
task 0, which is assigned to mentor 7. -/
theorem assignedMentorId_iff_assigned_witness :
    (({ id := 0, externalSessionId := 100, riskLevel := RiskLevel.critical, priority := 5,
        createdAt := 0, state := TaskState.Assigned,
        assignedMentorId := some 7 } : TaskRecord).assignedMentorId ≠ none ↔
      ({ id := 0, externalSessionId := 100, riskLevel := RiskLevel.critical, priority := 5,
         createdAt := 0, state := TaskState.Assigned,
         assignedMentorId := some 7 } : TaskRecord).state = TaskState.Assigned) :=
  assignedMentorId_iff_assigned reachable_rq2
    { id := 0, externalSessionId := 100, riskLevel := RiskLevel.critical, priority := 5,
      createdAt := 0, state := TaskState.Assigned, assignedMentorId := some 7 }
    (by decide)

/-- C2: each mentor holds at most one `currentAssignment` in every
reachable state: `Accept` answers `MentorBusy` whenever the caller already
holds an assignment, and no two distinct records are ever assigned to the
same mentor under any interleaving of core operations. -/
theorem mentor_capacity_invariant {s : CoreState} (h : Reachable s) :
    (∀ taskId m x, s.currentAssignment m = some x →
      (accept s taskId m).2 = AcceptResult.MentorBusy) ∧
    (∀ m t₁ t₂, t₁ ∈ s.tasks → t₂ ∈ s.tasks →
      t₁.assignedMentorId = some m → t₂.assignedMentorId = some m → t₁ = t₂) := by
  have hinv := reachable_inv h
  constructor
  · intro taskId m x hca
    rw [accept_of_busy hca]
  · intro m t₁ t₂ h₁ h₂ hm₁ hm₂
    have e₁ := hinv.caComplete t₁ h₁ m hm₁
    have e₂ := hinv.caComplete t₂ h₂ m hm₂
    rw [e₁] at e₂
    injection e₂ with hid
    exact pairwise_id_eq hinv.uniq h₁ h₂ hid

/-- C2 witness: in the reachable state `rq2` mentor 7 already holds task 0,
so a further `Accept` call by mentor 7 answers `MentorBusy`. -/
theorem mentor_capacity_invariant_witness :
    (accept rq2 0 7).2 = AcceptResult.MentorBusy :=
  (mentor_capacity_invariant reachable_rq2).1 0 7 0 rfl

/-! ## Claim C1: the accept race -/

theorem runAccepts_cons (taskId : Nat) (s : CoreState) (m : Nat) (ms : List Nat) :
    runAccepts taskId s (m :: ms) =
      ((runAccepts taskId (accept s taskId m).1 ms).1,
        (accept s taskId m).2 :: (runAccepts taskId (accept s taskId m).1 ms).2) := rfl

theorem runAccepts_stuck {s : CoreState} {t : TaskRecord} (taskId : Nat) (ms : List Nat)
    (hfind : s.tasks.find? (fun u => u.id == taskId) = some t)
    (hstate : t.state = TaskState.Assigned)
    (hfree : ∀ m ∈ ms, s.currentAssignment m = none) :
    runAccepts taskId s ms = (s, List.replicate ms.length AcceptResult.AlreadyTaken) := by
  induction ms with
  | nil => rfl
  | cons m ms ih =>
    have hnot : ¬ (t.state = TaskState.Open ∨ t.state = TaskState.Offered) := by
      rw [hstate]
      rintro (h | h) <;> cases h
    have hacc : accept s taskId m = (s, AcceptResult.AlreadyTaken) :=
      accept_of_stale (hfree m (List.mem_cons_self m ms)) hfind hnot
    have ih' := ih (fun x hx => hfree x (List.mem_cons_of_mem m hx))
    rw [runAccepts_cons, hacc]
    dsimp only
    rw [ih']
    rfl

/-- C1: for any task in state `Open` or `Offered` and any N ≥ 1 concurrent
`Accept` calls on it by distinct, free mentors — serialized in arrival
order by the per-task critical section, the only timing that matters (the
broadcaster's `Open`/`Offered` flip does not: both states are covered) —
exactly the first call returns `Success`, every other call returns
`AlreadyTaken`, and the task ends `Assigned` with `assignedMentorId` the
winner's id. -/
theorem accept_race_at_most_one_winner {s : CoreState} {t : TaskRecord}
    (taskId m0 : Nat) (rest : List Nat)
    (hfind : s.tasks.find? (fun u => u.id == taskId) = some t)
    (hstate : t.state = TaskState.Open ∨ t.state = TaskState.Offered)
    (hnodup : (m0 :: rest).Nodup)
    (hfree : ∀ m ∈ m0 :: rest, s.currentAssignment m = none) :
    (runAccepts taskId s (m0 :: rest)).2 =
        AcceptResult.Success :: List.replicate rest.length AcceptResult.AlreadyTaken ∧
    (runAccepts taskId s (m0 :: rest)).1.tasks.find? (fun u => u.id == taskId) =
        some { t with state := TaskState.Assigned, assignedMentorId := some m0 } ∧
    (runAccepts taskId s (m0 :: rest)).1.currentAssignment m0 = some taskId := by
  have htid : t.id = taskId := by simpa using List.find?_some hfind
  have hm0 : s.currentAssignment m0 = none := hfree m0 (List.mem_cons_self m0 rest)
  have hacc := accept_of_fresh hm0 hfind hstate
  have hid : ∀ u : TaskRecord,
      ((if u.id = taskId then
          { u with state := TaskState.Assigned, assignedMentorId := some m0 }
        else u) : TaskRecord).id = u.id := by
    intro u
    split <;> rfl
  have hfind1 :
      ((accept s taskId m0).1).tasks.find? (fun u => u.id == taskId) =
        some { t with state := TaskState.Assigned, assignedMentorId := some m0 } := by
    rw [hacc]
    rw [find?_map_id _ hid taskId, hfind, Option.map_some']
    rw [if_pos htid]
  have hnotin : m0 ∉ rest := (List.nodup_cons.mp hnodup).1
  have hfree1 : ∀ m ∈ rest, ((accept s taskId m0).1).currentAssignment m = none := by
    intro m hm
    have hne : m ≠ m0 := fun hcontra => hnotin (hcontra ▸ hm)
    rw [hacc]
    show (if m = m0 then some taskId else s.currentAssignment m) = none
    rw [if_neg hne]
    exact hfree m (List.mem_cons_of_mem m0 hm)
  have hstuck := runAccepts_stuck taskId rest hfind1 rfl hfree1
  have hrun : runAccepts taskId s (m0 :: rest) =
      ((accept s taskId m0).1,
        AcceptResult.Success :: List.replicate rest.length AcceptResult.AlreadyTaken) := by
    rw [runAccepts_cons, hstuck]
    dsimp only
    rw [hacc]
  refine ⟨by rw [hrun], by rw [hrun]; exact hfind1, ?_⟩
  rw [hrun]
  rw [hacc]
  show (if m0 = m0 then some taskId else s.currentAssignment m0) = some taskId
  rw [if_pos rfl]

/-- C1 witness: two free mentors race for the critical task of the §8
scenario; mentor 4 (first to the critical section) wins, mentor 5 observes
`AlreadyTaken`, and the record ends `Assigned` to mentor 4. -/
theorem accept_race_at_most_one_winner_witness :
    (runAccepts 1 qs3 [4, 5]).2 =
        AcceptResult.Success :: List.replicate 1 AcceptResult.AlreadyTaken ∧
    (runAccepts 1 qs3 [4, 5]).1.tasks.find? (fun u => u.id == 1) =
        some { mkOpenTask 1 RiskLevel.critical 9 1 with
                state := TaskState.Assigned, assignedMentorId := some 4 } ∧
    (runAccepts 1 qs3 [4, 5]).1.currentAssignment 4 = some 1 :=
  accept_race_at_most_one_winner 1 4 [5] (by decide) (Or.inl rfl) (by decide)
    (by intro m hm; rfl)

/-! ## Claim C5: re-queue on disconnect -/

/-- C5: for a task `Assigned` to mentor `m`, once `m` has disconnected and
the grace period has elapsed without reconnection, the re-queue transition
is enabled; it returns the record to `Open` as exactly
`{ t with state := Open, assignedMentorId := none }` — same `id`, same
`createdAt`, and every other field untouched — after which an `Accept` by
any other free mentor `m'` succeeds. -/
theorem requeue_on_disconnect (s : CoreState) (t : TaskRecord) (m m' : Nat)
    (hreach : Reachable s)
    (ht : t ∈ s.tasks)
    (hstate : t.state = TaskState.Assigned)
    (hment : t.assignedMentorId = some m)
    (hdis : s.connected m = false)
    (hgrace : s.lastSeenAt m + s.gracePeriod ≤ s.clock)
    (hfree : s.currentAssignment m' = none) :
    Step s (requeueTask s m t.id) ∧
    (requeueTask s m t.id).tasks.find? (fun u => u.id == t.id) =
      some { t with state := TaskState.Open, assignedMentorId := none } ∧
    (accept (requeueTask s m t.id) t.id m').2 = AcceptResult.Success := by
  have hinv := reachable_inv hreach
  have hca : s.currentAssignment m = some t.id := hinv.caComplete t ht m hment
  have hid : ∀ u : TaskRecord,
      ((if u.id = t.id then
          { u with state := TaskState.Open, assignedMentorId := none }
        else u) : TaskRecord).id = u.id := by
    intro u
    split <;> rfl
  have hfind0 : s.tasks.find? (fun u => u.id == t.id) = some t :=
    find?_of_mem_uniq hinv.uniq ht
  have hfind1 : (requeueTask s m t.id).tasks.find? (fun u => u.id == t.id) =
      some { t with state := TaskState.Open, assignedMentorId := none } := by
    show (s.tasks.map _).find? _ = _
    rw [find?_map_id _ hid t.id, hfind0, Option.map_some']
    rw [if_pos rfl]
  have hca1 : (requeueTask s m t.id).currentAssignment m' = none := by
    show (if m' = m then none else s.currentAssignment m') = none
    by_cases hmm : m' = m
    · rw [if_pos hmm]
    · rw [if_neg hmm]
      exact hfree
  refine ⟨Step.requeue s m t.id hca hdis hgrace, hfind1, ?_⟩
  rw [accept_of_fresh hca1 hfind1 (Or.inl rfl)]

/-- C5 witness: in the concrete run `rq4` — task 0 assigned to mentor 7,
mentor 7 disconnected, grace period elapsed — the re-queue step fires and
mentor 9 can then accept task 0. -/
theorem requeue_on_disconnect_witness :
    (accept (requeueTask rq4 7 0) 0 9).2 = AcceptResult.Success :=
  (requeue_on_disconnect rq4
    { id := 0, externalSessionId := 100, riskLevel := RiskLevel.critical, priority := 5,
      createdAt := 0, state := TaskState.Assigned, assignedMentorId := some 7 }
    7 9 reachable_rq4 (by decide) rfl rfl rfl (by decide) rfl).2.2

/-! ## Claim C4: the state machine -/

/-- C4 (counterexample): the claimed invariant fails on the core — the §4.6
disconnect re-queue takes task 0 of the concrete run from `Assigned`
(state `rq4`) directly back to `Open` (state `rq5`) in a single step,
without passing through `Withdrawn`. -/
theorem assigned_to_open_counterexample : ¬ noDirectAssignedToOpen := by
  intro h
  exact h rq4 rq5 reachable_rq4 (Step.requeue rq4 7 0 rfl rfl (by decide))
    { id := 0, externalSessionId := 100, riskLevel := RiskLevel.critical, priority := 5,
      createdAt := 0, state := TaskState.Assigned, assignedMentorId := some 7 }
    (by decide)
    { id := 0, externalSessionId := 100, riskLevel := RiskLevel.critical, priority := 5,
      createdAt := 0, state := TaskState.Open, assignedMentorId := none }
    (by decide) rfl rfl rfl

/-- C4 (amended): state transitions are monotonic per the §4.3 machine
extended by the §4.6 re-queue edge: in one core step each record either
keeps its state, moves `Open → Offered`, moves `Open`/`Offered` to
`Assigned`/`Withdrawn`/`Expired`, or re-enters `Open` from `Assigned`
directly via the disconnect re-queue — not through `Withdrawn`, which is
terminal. -/
theorem state_transitions_follow_machine {s s' : CoreState}
    (hreach : Reachable s) (hstep : Step s s') :
    ∀ t ∈ s.tasks, ∀ t' ∈ s'.tasks, t'.id = t.id →
      allowedEdge t.state t'.state := by
  have hinv := reachable_inv hreach
  intro t ht t' ht' hid
  unfold allowedEdge
  cases hstep with
  | create r hfresh hstate hass =>
    rcases List.mem_append.mp ht' with h | h
    · have heq := pairwise_id_eq hinv.uniq h ht hid
      rw [heq]
      exact Or.inl rfl
    · have h' : t' = r := by simpa using h
      subst h'
      exact absurd hid.symm (hfresh t ht)
  | offer taskId =>
    have hf : ∀ u : TaskRecord,
        ((if u.id = taskId ∧ u.state = TaskState.Open then
            { u with state := TaskState.Offered }
          else u) : TaskRecord).id = u.id := by
      intro u
      split <;> rfl
    have heq := mem_map_id_eq hf hinv.uniq ht ht' hid
    by_cases hc : t.id = taskId ∧ t.state = TaskState.Open
    · rw [heq, if_pos hc]
      exact Or.inr (Or.inl ⟨hc.2, rfl⟩)
    · rw [heq, if_neg hc]
      exact Or.inl rfl
  | acceptCall taskId mentorId =>
    cases hca : s.currentAssignment mentorId with
    | some x =>
      rw [accept_of_busy hca] at ht'
      have heq := pairwise_id_eq hinv.uniq ht' ht hid
      rw [heq]
      exact Or.inl rfl
    | none =>
      cases hfo : s.tasks.find? (fun u => u.id == taskId) with
      | none =>
        rw [accept_of_notfound hca hfo] at ht'
        have heq := pairwise_id_eq hinv.uniq ht' ht hid
        rw [heq]
        exact Or.inl rfl
      | some t0 =>
        by_cases hst : t0.state = TaskState.Open ∨ t0.state = TaskState.Offered
        · rw [accept_of_fresh hca hfo hst] at ht'
          have hf : ∀ u : TaskRecord,
              ((if u.id = taskId then
                  { u with state := TaskState.Assigned, assignedMentorId := some mentorId }
                else u) : TaskRecord).id = u.id := by
            intro u
            split <;> rfl
          have heq := mem_map_id_eq hf hinv.uniq ht ht' hid
          by_cases hc : t.id = taskId
          · have ht0mem := List.mem_of_find?_eq_some hfo
            have ht0id : t0.id = taskId := by simpa using List.find?_some hfo
            have htt0 : t = t0 := pairwise_id_eq hinv.uniq ht ht0mem (by rw [hc, ht0id])
            rw [heq, if_pos hc]
            refine Or.inr (Or.inr (Or.inl ⟨?_, Or.inl rfl⟩))
            rw [htt0]
            exact hst
          · rw [heq, if_neg hc]
            exact Or.inl rfl
        · rw [accept_of_stale hca hfo hst] at ht'
          have heq := pairwise_id_eq hinv.uniq ht' ht hid
          rw [heq]
          exact Or.inl rfl
  | withdraw taskId =>
    have hf : ∀ u : TaskRecord,
        ((if u.id = taskId ∧ (u.state = TaskState.Open ∨ u.state = TaskState.Offered) then
            { u with state := TaskState.Withdrawn }
          else u) : TaskRecord).id = u.id := by
      intro u
      split <;> rfl
    have heq := mem_map_id_eq hf hinv.uniq ht ht' hid
    by_cases hc : t.id = taskId ∧ (t.state = TaskState.Open ∨ t.state = TaskState.Offered)
    · rw [heq, if_pos hc]
      exact Or.inr (Or.inr (Or.inl ⟨hc.2, Or.inr (Or.inl rfl)⟩))
    · rw [heq, if_neg hc]
      exact Or.inl rfl
  | expire taskId =>
    have hf : ∀ u : TaskRecord,
        ((if u.id = taskId ∧ (u.state = TaskState.Open ∨ u.state = TaskState.Offered) then
            { u with state := TaskState.Expired }
          else u) : TaskRecord).id = u.id := by
      intro u
      split <;> rfl
    have heq := mem_map_id_eq hf hinv.uniq ht ht' hid
    by_cases hc : t.id = taskId ∧ (t.state = TaskState.Open ∨ t.state = TaskState.Offered)
    · rw [heq, if_pos hc]
      exact Or.inr (Or.inr (Or.inl ⟨hc.2, Or.inr (Or.inr rfl)⟩))
    · rw [heq, if_neg hc]
      exact Or.inl rfl
  | connect m =>
    have heq := pairwise_id_eq hinv.uniq ht' ht hid
    rw [heq]
    exact Or.inl rfl
  | disconnect m =>
    have heq := pairwise_id_eq hinv.uniq ht' ht hid
    rw [heq]
    exact Or.inl rfl
  | tick =>
    have heq := pairwise_id_eq hinv.uniq ht' ht hid
    rw [heq]
    exact Or.inl rfl
  | requeue m taskId hca hdis hgrace =>
    have hf : ∀ u : TaskRecord,
        ((if u.id = taskId then
            { u with state := TaskState.Open, assignedMentorId := none }
          else u) : TaskRecord).id = u.id := by
      intro u
      split <;> rfl
    have heq := mem_map_id_eq hf hinv.uniq ht ht' hid
    by_cases hc : t.id = taskId
    · rcases hinv.caSound m taskId hca with ⟨t0, ht0, ht0id, ht0st, ht0m⟩
      have htt0 : t = t0 := pairwise_id_eq hinv.uniq ht ht0 (by rw [hc, ht0id])
      rw [heq, if_pos hc]
      refine Or.inr (Or.inr (Or.inr ⟨?_, rfl⟩))
      rw [htt0]
      exact ht0st
    · rw [heq, if_neg hc]
      exact Or.inl rfl

/-- C4 (amended) witness: the re-queue step from `rq4` to `rq5` moves task
0 along the allowed edge `Assigned → Open`. -/
theorem state_transitions_follow_machine_witness :
    allowedEdge TaskState.Assigned TaskState.Open :=
  state_transitions_follow_machine reachable_rq4
    (Step.requeue rq4 7 0 rfl rfl (by decide))
    { id := 0, externalSessionId := 100, riskLevel := RiskLevel.critical, priority := 5,
      createdAt := 0, state := TaskState.Assigned, assignedMentorId := some 7 }
    (by decide)
    { id := 0, externalSessionId := 100, riskLevel := RiskLevel.critical, priority := 5,
      createdAt := 0, state := TaskState.Open, assignedMentorId := none }
    (by decide) rfl

/-! ## Claim C8: dashboard counts -/

/-- C8: `crisis_alerts` equals the number of TaskRecords with
`riskLevel = critical` whose state is `Open` or `Offered`, and
`active_tasks` the number of `Open`/`Offered` records; both are computed
by querying the store — two states with the same store agree on them, and
`CoreState` holds no materialized counter. -/
theorem dashboard_counts_from_store :
    (∀ s : CoreState,
      crisisAlerts s = s.tasks.countP (fun t =>
        decide (t.riskLevel = RiskLevel.critical ∧
          (t.state = TaskState.Open ∨ t.state = TaskState.Offered))) ∧
      activeTasks s = s.tasks.countP (fun t =>
        decide (t.state = TaskState.Open ∨ t.state = TaskState.Offered))) ∧
    (∀ s₁ s₂ : CoreState, s₁.tasks = s₂.tasks →
      crisisAlerts s₁ = crisisAlerts s₂ ∧ activeTasks s₁ = activeTasks s₂) := by
  constructor
  · intro s
    constructor
    · unfold crisisAlerts
      rw [List.countP_eq_length_filter]
      congr 1
      apply List.filter_congr
      intro a _
      rcases a with ⟨i, es, rl, pr, ct, st, am⟩
      cases rl <;> cases st <;> rfl
    · unfold activeTasks
      rw [List.countP_eq_length_filter]
      congr 1
      apply List.filter_congr
      intro a _
      rcases a with ⟨i, es, rl, pr, ct, st, am⟩
      cases st <;> rfl
  · intro s₁ s₂ h
    unfold crisisAlerts activeTasks
    rw [h]
    exact ⟨rfl, rfl⟩

/-- C8 witness: the scenario store `qs3` (three open tasks, one critical)
reports one crisis alert and three active tasks, and a state differing
from `qs3` only in its clock reports the same counts. -/
theorem dashboard_counts_from_store_witness :
    crisisAlerts { qs3 with clock := 5 } = crisisAlerts qs3 ∧
    activeTasks { qs3 with clock := 5 } = activeTasks qs3 :=
  dashboard_counts_from_store.2 { qs3 with clock := 5 } qs3 rfl

/-! ## Claims C9/C10: the client handlers -/

/-- C9: `confirmAcceptTask` has no effect at all when `selectedTask` is
null.  With a selected task it emits `accept_task` and then —
unconditionally, reading no coordinator reply — shows the success
notification, navigates for chat/emergency sessions (voice gets the
voice-call notification instead), clears the dialog state, and re-fetches
the task list; its output depends only on the component state, and no
`AlreadyTaken`-style error notification ever appears among its effects. -/
theorem confirmAcceptTask_behavior (s : TaskQueueState) :
    (s.selectedTask = none → TaskQueueUI.confirmAcceptTask s = (s, [])) ∧
    (∀ t, s.selectedTask = some t →
      TaskQueueUI.confirmAcceptTask s =
        ({ acceptDialogOpen := false, selectedTask := none, notes := "" },
         [ ClientEffect.emitAcceptTask t.task_sid s.notes,
           ClientEffect.notify
             ("Accepted " ++ t.risk_level ++ " priority task for " ++ t.user_alias)
             "success",
           (if t.session_type = SessionType.chat ∨ t.session_type = SessionType.emergency
            then ClientEffect.navigateTo ("/conversation/" ++ t.id)
            else ClientEffect.notify "Incoming voice call - please answer your phone" "info"),
           ClientEffect.fetchTasks ]) ∧
      (∀ msg, ClientEffect.notify msg "error" ∉ (TaskQueueUI.confirmAcceptTask s).2)) := by
  constructor
  · intro h
    unfold TaskQueueUI.confirmAcceptTask
    rw [h]
  · intro t ht
    have hmain : TaskQueueUI.confirmAcceptTask s =
        ({ acceptDialogOpen := false, selectedTask := none, notes := "" },
         [ ClientEffect.emitAcceptTask t.task_sid s.notes,
           ClientEffect.notify
             ("Accepted " ++ t.risk_level ++ " priority task for " ++ t.user_alias)
             "success",
           (if t.session_type = SessionType.chat ∨ t.session_type = SessionType.emergency
            then ClientEffect.navigateTo ("/conversation/" ++ t.id)
            else ClientEffect.notify "Incoming voice call - please answer your phone" "info"),
           ClientEffect.fetchTasks ]) := by
      unfold TaskQueueUI.confirmAcceptTask
      rw [ht]
    refine ⟨hmain, ?_⟩
    intro msg hmem
    rw [hmain] at hmem
    by_cases hc : t.session_type = SessionType.chat ∨ t.session_type = SessionType.emergency
    · rw [if_pos hc] at hmem
      simp only [List.mem_cons] at hmem
      rcases hmem with h | h | h | h | h
      · exact ClientEffect.noConfusion h
      · injection h with h1 h2
        exact absurd h2 (by decide)
      · exact ClientEffect.noConfusion h
      · exact ClientEffect.noConfusion h
      · cases h
    · rw [if_neg hc] at hmem
      simp only [List.mem_cons] at hmem
      rcases hmem with h | h | h | h | h
      · exact ClientEffect.noConfusion h
      · injection h with h1 h2
        exact absurd h2 (by decide)
      · injection h with h1 h2
        exact absurd h2 (by decide)
      · exact ClientEffect.noConfusion h
      · cases h

/-- C9 witness: the handler evaluated with no selection (no effects) and
with a selected critical chat task (emit, success toast, navigation,
re-fetch, cleared dialog). -/
theorem confirmAcceptTask_behavior_witness :
    TaskQueueUI.confirmAcceptTask ⟨true, none, "n"⟩ = (⟨true, none, "n"⟩, []) ∧
    TaskQueueUI.confirmAcceptTask
        ⟨true, some ⟨"42", "sid42", "alice", SessionType.chat, "critical"⟩, "hi"⟩ =
      ({ acceptDialogOpen := false, selectedTask := none, notes := "" },
       [ ClientEffect.emitAcceptTask "sid42" "hi",
         ClientEffect.notify "Accepted critical priority task for alice" "success",
         ClientEffect.navigateTo "/conversation/42",
         ClientEffect.fetchTasks ]) :=
  ⟨(confirmAcceptTask_behavior ⟨true, none, "n"⟩).1 rfl,
   ((confirmAcceptTask_behavior
      ⟨true, some ⟨"42", "sid42", "alice", SessionType.chat, "critical"⟩, "hi"⟩).2
      ⟨"42", "sid42", "alice", SessionType.chat, "critical"⟩ rfl).1⟩

/-- C10: the `getPriorityColor` of `TaskQueue.tsx` and the
`getPriorityColor` of the Dashboard component are extensionally equal
total functions on strings; both map "critical" to "error", "high" to
"warning", "medium" to "info", and every other input to "success". -/
theorem getPriorityColor_equivalence :
    (∀ s : String, TaskQueueUI.getPriorityColor s = DashboardUI.getPriorityColor s) ∧
    TaskQueueUI.getPriorityColor "critical" = "error" ∧
    TaskQueueUI.getPriorityColor "high" = "warning" ∧
    TaskQueueUI.getPriorityColor "medium" = "info" ∧
    (∀ s : String, s ≠ "critical" → s ≠ "high" → s ≠ "medium" →
      TaskQueueUI.getPriorityColor s = "success" ∧
      DashboardUI.getPriorityColor s = "success") := by
  refine ⟨fun s => rfl, rfl, rfl, rfl, ?_⟩
  intro s h1 h2 h3
  constructor
  · unfold TaskQueueUI.getPriorityColor
    rw [if_neg h1, if_neg h2, if_neg h3]
  · unfold DashboardUI.getPriorityColor
    rw [if_neg h1, if_neg h2, if_neg h3]

/-- C10 witness: both helpers send the remaining risk level "low" — and
with it any unrecognized string — to "success". -/
theorem getPriorityColor_equivalence_witness :
    TaskQueueUI.getPriorityColor "low" = "success" ∧
    DashboardUI.getPriorityColor "low" = "success" :=
  getPriorityColor_equivalence.2.2.2.2 "low" (by decide) (by decide) (by decide)
